import Mathlib

/-!
# dirarch: the directory archive builder

A shallow embedding of `DIrectoriesArchiveBuilders.cpp`.

* `HumanReadable` and its stream output (`operator<<`).  The `double`
  arithmetic of the source is modelled exactly: a non-negative `double` is a
  dyadic rational `num / 2 ^ scale`, and every operation that rounds (the
  conversion of the `std::uintmax_t`, the product by `10.`, the quotient by
  `10.`) rounds to 53 significant bits, to nearest, ties to even, as IEEE-754
  binary64 does.  The values met here are `0` or lie between `1` and `2 ^ 64`,
  so neither overflow nor subnormal numbers occur.  The stream writes a
  `double` as `printf` does with `%g` and precision 6.
* `CSVWriter` (constructor, `writeEntry`, `setTotalEntries`,
  `updateProgress`), `appendLog`, `countEntries`, `processDirectory` and
  `runProgram`, as functions on an explicit state: the bytes written to the
  output file, the two `size_t` counters (64 bits, wrapping), and the messages
  sent to the progress bar and to the log window.  An exception is a value
  returned next to the state reached when it was thrown.  The directory
  iterator is the list of its steps, each one an entry or an error.
-/

namespace DirArch

/-! ## Binary64 arithmetic on non-negative values -/

/-- A non-negative `double` value `num / 2 ^ scale`. -/
structure Dyadic where
  num : Nat
  scale : Nat
deriving DecidableEq, Repr

/-- The number of low bits of `x` that do not fit a 53-bit significand:
`0` when `x < 2 ^ 53`, otherwise the `s` with `2 ^ 52 ≤ x / 2 ^ s < 2 ^ 53`.
The first argument bounds the recursion; `excessBits x x` never exhausts it. -/
def excessBits : Nat → Nat → Nat
  | 0, _ => 0
  | fuel + 1, x => if x < 2 ^ 53 then 0 else excessBits fuel (x / 2) + 1

/-- Rounding of the integer `x` to 53 significant bits, to nearest, ties to
even.  `sticky` says that the exact value lies strictly above `x` by less than
one unit (the remainder of a division); it only matters on a tie. -/
def round53 (x : Nat) (sticky : Bool) : Nat :=
  let s := excessBits x x
  let q := x / 2 ^ s
  let r := x % 2 ^ s
  if 2 ^ s < 2 * r ∨ (2 * r = 2 ^ s ∧ (sticky = true ∨ q % 2 = 1)) then (q + 1) * 2 ^ s
  else q * 2 ^ s

/-- The conversion `double mantissa = hr.size` of a `std::uintmax_t`. -/
def toDouble (n : Nat) : Dyadic := ⟨round53 n false, 0⟩

/-- The loop test `mantissa >= 1024.`. -/
def Dyadic.ge1024 (d : Dyadic) : Bool := decide (1024 * 2 ^ d.scale ≤ d.num)

/-- The step `mantissa /= 1024.`: dividing by a power of two is exact. -/
def Dyadic.div1024 (d : Dyadic) : Dyadic := ⟨d.num, d.scale + 10⟩

/-- The product `mantissa * 10.`, rounded to a `double`. -/
def Dyadic.mul10 (d : Dyadic) : Dyadic := ⟨round53 (d.num * 10) false, d.scale⟩

/-- The integer `std::ceil(x)`. -/
def Dyadic.ceil (d : Dyadic) : Nat := (d.num + (2 ^ d.scale - 1)) / 2 ^ d.scale

/-- The quotient `a / b` of two integer-valued doubles, rounded to a `double`
(`0 < b`, and `a / b` at least `2 ^ (-67)` when `a` is not zero). -/
def divDouble (a b : Nat) : Dyadic :=
  if a = 0 then ⟨0, 0⟩
  else ⟨round53 (a * 2 ^ 120 / b) (decide (a * 2 ^ 120 % b ≠ 0)), 120⟩

/-- The loop `for (; mantissa >= 1024.; mantissa /= 1024., ++o);`.  The first
argument bounds the number of iterations. -/
def scaleLoop : Nat → Dyadic → Nat → Dyadic × Nat
  | 0, mantissa, o => (mantissa, o)
  | fuel + 1, mantissa, o =>
    if mantissa.ge1024 then scaleLoop fuel mantissa.div1024 (o + 1) else (mantissa, o)

/-! ## Default stream output of a `double` (`%g` with precision 6) -/

/-- The integer nearest to `a / b`, ties to even. -/
def roundHalfEven (a b : Nat) : Nat :=
  let q := a / b
  let r := a % b
  if b < 2 * r ∨ (2 * r = b ∧ q % 2 = 1) then q + 1 else q

/-- The number of decimal digits of `m`, less one. -/
def decLog : Nat → Nat → Nat
  | 0, _ => 0
  | fuel + 1, m => if m < 10 then 0 else decLog fuel (m / 10) + 1

/-- For `0 < d < 1`: the least `j ≥ 1` with `1 ≤ d * 10 ^ j`. -/
def negDecExp : Nat → Dyadic → Nat → Nat
  | 0, _, j => j
  | fuel + 1, d, j => if 2 ^ d.scale ≤ d.num * 10 ^ j then j else negDecExp fuel d (j + 1)

/-- The decimal exponent of `d` before rounding: `⌊log10 d⌋`. -/
def decExp0 (d : Dyadic) : Int :=
  if 2 ^ d.scale ≤ d.num then (decLog (d.num / 2 ^ d.scale) (d.num / 2 ^ d.scale) : Nat)
  else - (negDecExp d.scale d 1 : Nat)

/-- The value `d * 10 ^ (5 - X)` rounded to an integer: six significant
digits when `X` is the decimal exponent. -/
def sigDigits (d : Dyadic) (X : Int) : Nat :=
  if X ≤ 5 then roundHalfEven (d.num * 10 ^ (5 - X).toNat) (2 ^ d.scale)
  else roundHalfEven d.num (2 ^ d.scale * 10 ^ (X - 5).toNat)

/-- The decimal exponent of `d` once rounded to six significant digits. -/
def decExp (d : Dyadic) : Int :=
  if sigDigits d (decExp0 d) < 10 ^ 6 then decExp0 d else decExp0 d + 1

/-- The fraction `f / 10 ^ width` as text: the point and the digits, trailing
zeros removed; nothing at all when the fraction is zero. -/
def fracDigits (f width : Nat) : String :=
  let ds := Nat.toDigits 10 f
  let padded := List.replicate (width - ds.length) '0' ++ ds
  let kept := (padded.reverse.dropWhile (fun c => c == '0')).reverse
  if kept.isEmpty then "" else "." ++ String.mk kept

/-- The text `os << d` writes for a non-negative `double` with the stream in
its default state: `printf` conversion `%g` with precision 6. -/
def printDouble (d : Dyadic) : String :=
  if d.num = 0 then "0"
  else
    let X := decExp d
    let D := sigDigits d X
    if -4 ≤ X ∧ X < 6 then
      let p := (5 - X).toNat
      Nat.repr (D / 10 ^ p) ++ fracDigits (D % 10 ^ p) p
    else
      let e := X.natAbs
      Nat.repr (D / 10 ^ 5) ++ fracDigits (D % 10 ^ 5) 5 ++ "e" ++ (if X < 0 then "-" else "+")
        ++ (if e < 10 then "0" else "") ++ Nat.repr e

/-! ## `HumanReadable` -/

/-- The struct `HumanReadable`; `size` is a `std::uintmax_t`, below `2 ^ 64`. -/
structure HumanReadable where
  size : Nat
deriving DecidableEq, Repr

/-- The character `"BKMGTPE"[o]`; index 7 is the terminating zero. -/
def unitLetter (o : Nat) : Char := "BKMGTPE".toList.getD o (Char.ofNat 0)

/-- The state `(mantissa, o)` when the loop of `operator<<` exits. -/
def HumanReadable.scaled (hr : HumanReadable) : Dyadic × Nat :=
  scaleLoop (toDouble hr.size).num (toDouble hr.size) 0

/-- The unit index `o` with which `"BKMGTPE"` is read. -/
def HumanReadable.unitIndex (hr : HumanReadable) : Nat := hr.scaled.2

/-- The integer `std::ceil(mantissa * 10.)`: the printed mantissa in tenths. -/
def HumanReadable.tenths (hr : HumanReadable) : Nat := hr.scaled.1.mul10.ceil

/-- The text of `os << std::ceil(mantissa * 10.) / 10.`. -/
def HumanReadable.mantissaText (hr : HumanReadable) : String :=
  printDouble (divDouble hr.tenths 10)

/-- The text written by `operator<<(std::ostream&, HumanReadable)`. -/
def HumanReadable.output (hr : HumanReadable) : String :=
  let os := hr.mantissaText ++ String.singleton (unitLetter hr.unitIndex)
  if hr.unitIndex ≠ 0 then os ++ "B (" ++ Nat.repr hr.size ++ ")" else os

/-- The decimal text of `K / 10` with at most one decimal place. -/
def showTenths (K : Nat) : String :=
  Nat.repr (K / 10) ++ (if K % 10 = 0 then "" else "." ++ Nat.repr (K % 10))

/-! ## Directory entries and filesystem errors -/

/-- A `fs::filesystem_error`: the path it names and its message. -/
structure FsError where
  path1 : String
  what : String
deriving DecidableEq, Repr

/-- A `fs::directory_entry` as `writeEntry` sees it: the three texts taken
from `entry.path()`, and the outcome of the three queries, each of which
either returns or throws a `fs::filesystem_error`.  `lastWriteTime` holds the
text `timebuf` that `strftime` makes of `fs::last_write_time(entry)`;
`fileSize` is the `std::uintmax_t` of `fs::file_size(path)`.  The conversions
`path.string()` are taken to succeed. -/
structure DirEntry where
  path : String
  filename : String
  extension : String
  lastWriteTime : Except FsError String
  fileSize : Except FsError Nat
  isDirectory : Except FsError Bool

/-- One step of a `fs::recursive_directory_iterator`: the next entry, or a
`fs::filesystem_error` thrown by the construction or the increment. -/
inductive Step where
  | entry (e : DirEntry)
  | iterError (e : FsError)

/-- An entry all of whose queries succeed. -/
structure FileInfo where
  path : String
  filename : String
  extension : String
  size : Nat
  timebuf : String
  isDirectory : Bool

/-- The directory entry whose queries return the values of `f`. -/
def FileInfo.toEntry (f : FileInfo) : DirEntry :=
  ⟨f.path, f.filename, f.extension, .ok f.timebuf, .ok f.size, .ok f.isDirectory⟩

/-- The iterator step that yields the entry of `f`. -/
def FileInfo.toStep (f : FileInfo) : Step := Step.entry f.toEntry

/-! ## The windows -/

/-- What the program has sent to its windows: the positions of the
`PBM_SETPOS` messages to `hProgress`, the texts appended to `hLog`, the text
of `hOutputPath`, and whether `hOpenButton` is enabled. -/
structure Gui where
  progress : List Int
  log : List String
  outputPathText : String
  openEnabled : Bool
deriving DecidableEq, Repr

/-- The function `appendLog`. -/
def appendLog (gui : Gui) (message : String) : Gui :=
  { gui with log := gui.log ++ [message] }

/-! ## `CSVWriter` -/

/-- The number of values of a `size_t` (64-bit target). -/
def SIZE_MOD : Nat := 2 ^ 64

/-- The conversion `static_cast<int>(x)` of a `size_t`: the low 32 bits read
as two's complement. -/
def toInt32 (x : Nat) : Int :=
  if x % 2 ^ 32 < 2 ^ 31 then ((x % 2 ^ 32 : Nat) : Int) else ((x % 2 ^ 32 : Nat) : Int) - 2 ^ 32

/-- The class `CSVWriter`: the bytes written to `file` so far and the two
counters. -/
structure CSVWriter where
  file : String
  totalEntries : Nat
  processedEntries : Nat
deriving DecidableEq, Repr

/-- The line the constructor writes. -/
def header : String := "Path,Name,Extension,Size, Last Update Date,Is Directory\n"

/-- The constructor `CSVWriter(filename)` when the file opens: the file is
created or truncated and the header line written. -/
def CSVWriter.new : CSVWriter := ⟨header, 0, 0⟩

/-- The method `setTotalEntries`. -/
def CSVWriter.setTotalEntries (w : CSVWriter) (total : Nat) : CSVWriter :=
  { w with totalEntries := total }

/-- The value `static_cast<int>((processedEntries * 100) / totalEntries)`. -/
def percentage (totalEntries processedEntries : Nat) : Int :=
  toInt32 (processedEntries * 100 % SIZE_MOD / totalEntries)

/-- The method `updateProgress`. -/
def CSVWriter.updateProgress (w : CSVWriter) (gui : Gui) : Gui :=
  if 0 < w.totalEntries then
    { gui with progress := gui.progress ++ [percentage w.totalEntries w.processedEntries] }
  else gui

/-- The method `writeEntry`.  The operands of the `<<` chain are evaluated
and written from left to right, so what precedes a throwing query is already
in the file when the exception leaves the method (the third component). -/
def CSVWriter.writeEntry (w : CSVWriter) (gui : Gui) (entry : DirEntry) :
    CSVWriter × Gui × Option FsError :=
  match entry.lastWriteTime with
  | .error e => (w, gui, some e)
  | .ok timebuf =>
    let w1 := { w with
      file := w.file ++ entry.path ++ "," ++ entry.filename ++ "," ++ entry.extension ++ "," }
    match entry.fileSize with
    | .error e => (w1, gui, some e)
    | .ok size =>
      let w2 := { w1 with
        file := w1.file ++ (HumanReadable.mk size).output ++ "," ++ timebuf ++ "," }
      match entry.isDirectory with
      | .error e => (w2, gui, some e)
      | .ok isDir =>
        let w3 := { w2 with
          file := w2.file ++ (if isDir then "Yes" else "No") ++ "\n"
          processedEntries := (w2.processedEntries + 1) % SIZE_MOD }
        (w3, w3.updateProgress gui, none)

/-! ## The two passes and `runProgram` -/

/-- The function `countEntries`, over the steps of its iterator and from the
count so far: an iterator error leaves the function as an exception. -/
def countEntries : List Step → Nat → Except FsError Nat
  | [], count => .ok count
  | Step.iterError e :: _, _ => .error e
  | Step.entry _ :: rest, count => countEntries rest ((count + 1) % SIZE_MOD)

/-- The `for` loop inside the `try` block of `processDirectory`: it ends with
the steps, or at the first exception. -/
def processLoop : List Step → CSVWriter → Gui → CSVWriter × Gui × Option FsError
  | [], w, gui => (w, gui, none)
  | Step.iterError e :: _, w, gui => (w, gui, some e)
  | Step.entry en :: rest, w, gui =>
    match w.writeEntry gui en with
    | (w1, gui1, some e) => (w1, gui1, some e)
    | (w1, gui1, none) => processLoop rest w1 (appendLog gui1 ("Processed: " ++ en.path ++ "\r\n"))

/-- The function `processDirectory`: the loop, and the `catch` clause around
the whole of it. -/
def processDirectory (steps : List Step) (w : CSVWriter) (gui : Gui) : CSVWriter × Gui :=
  match processLoop steps w gui with
  | (w1, gui1, none) => (w1, gui1)
  | (w1, gui1, some e) =>
    (w1, appendLog gui1 ("Error accessing path: " ++ e.path1 ++ " - " ++ e.what ++ "\r\n"))

/-- What `runProgram` finds around it: the path `outputPath` it computes for
`file_info.csv`, whether that file can be opened for writing, and what the
directory iterator over a given root yields during the counting pass and
during the walking pass. -/
structure Env where
  outputPath : String
  canOpenOutput : Bool
  countPass : String → List Step
  walkPass : String → List Step

/-- What `runProgram` changes: the content of the output file (`none` while
it does not exist) and the windows. -/
structure World where
  outputFile : Option String
  gui : Gui
deriving DecidableEq, Repr

/-- The function `runProgram`; `directoryPath` is the text of `hEdit`. -/
def runProgram (env : Env) (world : World) (directoryPath : String) : World :=
  if env.canOpenOutput then
    let writer := CSVWriter.new
    let gui1 := appendLog world.gui "Counting entries...\r\n"
    match countEntries (env.countPass directoryPath) 0 with
    | .error e =>
      { outputFile := some writer.file
        gui := appendLog gui1 ("An error occurred: " ++ e.what ++ "\r\n") }
    | .ok totalEntries =>
      let writer := writer.setTotalEntries totalEntries
      let gui2 := appendLog gui1 "Processing directory...\r\n"
      let done := processDirectory (env.walkPass directoryPath) writer gui2
      let gui3 := appendLog done.2
        ("File information has been written to " ++ env.outputPath ++ "\r\n")
      { outputFile := some done.1.file
        gui := { gui3 with outputPathText := env.outputPath, openEnabled := true } }
  else
    { world with
      gui := appendLog world.gui "An error occurred: Unable to open output file\r\n" }

/-! ## Reference functions for the statements -/

/-- The data line of an entry whose queries succeed: six fields and a
newline. -/
def FileInfo.line (f : FileInfo) : String :=
  f.path ++ "," ++ f.filename ++ "," ++ f.extension ++ "," ++ (HumanReadable.mk f.size).output
    ++ "," ++ f.timebuf ++ "," ++ (if f.isDirectory then "Yes" else "No") ++ "\n"

/-- The log line of a processed entry. -/
def FileInfo.logLine (f : FileInfo) : String := "Processed: " ++ f.path ++ "\r\n"

/-- The log line of the `catch` clause of `processDirectory`. -/
def FsError.logLine (e : FsError) : String :=
  "Error accessing path: " ++ e.path1 ++ " - " ++ e.what ++ "\r\n"

/-- The error a step raises, if it raises one: the iterator error, or the
first query of the entry that throws. -/
def Step.failure : Step → Option FsError
  | Step.iterError e => some e
  | Step.entry en =>
    match en.lastWriteTime with
    | .error e => some e
    | .ok _ =>
      match en.fileSize with
      | .error e => some e
      | .ok _ =>
        match en.isDirectory with
        | .error e => some e
        | .ok _ => none

/-- The part of its line a failing step leaves in the file. -/
def Step.fragment : Step → String
  | Step.iterError _ => ""
  | Step.entry en =>
    match en.lastWriteTime with
    | .error _ => ""
    | .ok timebuf =>
      match en.fileSize with
      | .error _ => en.path ++ "," ++ en.filename ++ "," ++ en.extension ++ ","
      | .ok size =>
        en.path ++ "," ++ en.filename ++ "," ++ en.extension ++ ","
          ++ (HumanReadable.mk size).output ++ "," ++ timebuf ++ ","

/-- The state after the entries of `fs` have been written and logged. -/
def writeAll : List FileInfo → CSVWriter × Gui → CSVWriter × Gui
  | [], s => s
  | f :: fs, s =>
    let w1 : CSVWriter :=
      { file := s.1.file ++ f.line
        totalEntries := s.1.totalEntries
        processedEntries := (s.1.processedEntries + 1) % SIZE_MOD }
    writeAll fs (w1, appendLog (w1.updateProgress s.2) f.logLine)

/-! ## Sample values -/

/-- A regular file of ten bytes. -/
def sampleFile : FileInfo :=
  ⟨"C:\\data\\a.txt", "a.txt", ".txt", 10, "2024-01-02 03:04:05", false⟩

/-- The error of a size query that is denied. -/
def deniedError : FsError := ⟨"C:\\data\\b.bin", "file_size: Access is denied."⟩

/-- An entry whose modification time can be read and whose size cannot. -/
def deniedEntry : DirEntry :=
  ⟨"C:\\data\\b.bin", "b.bin", ".bin", .ok "2024-01-02 03:04:06", .error deniedError, .ok false⟩

/-- The windows before a scan. -/
def emptyGui : Gui := ⟨[], [], "", false⟩

/-- A directory with the sample file and the entry whose size is denied, the
output file being writable; the iterator cannot be opened on an empty path. -/
def sampleEnv : Env where
  outputPath := "C:\\tool\\file_info.csv"
  canOpenOutput := true
  countPass := fun dir =>
    if dir = "" then [Step.iterError ⟨"", "recursive_directory_iterator: cannot open"⟩]
    else [sampleFile.toStep, Step.entry deniedEntry]
  walkPass := fun dir =>
    if dir = "" then [Step.iterError ⟨"", "recursive_directory_iterator: cannot open"⟩]
    else [sampleFile.toStep, Step.entry deniedEntry]

/-- A directory with two readable files, the output file being writable. -/
def readableEnv : Env where
  outputPath := "C:\\tool\\file_info.csv"
  canOpenOutput := true
  countPass := fun _ => [sampleFile, sampleFile].map FileInfo.toStep
  walkPass := fun _ => [sampleFile, sampleFile].map FileInfo.toStep

/-- An output file left by an earlier scan, and untouched windows. -/
def sampleWorld : World := ⟨some (header ++ sampleFile.line), emptyGui⟩

/-! ## Rounding to 53 bits -/

theorem excessBits_spec (fuel : Nat) : ∀ x, x ≤ fuel →
    x / 2 ^ excessBits fuel x < 2 ^ 53 ∧
      (excessBits fuel x ≠ 0 → 2 ^ 52 ≤ x / 2 ^ excessBits fuel x) := by
  induction fuel with
  | zero =>
    intro x hx
    have : x = 0 := by omega
    subst this
    simp [excessBits]
  | succ f ih =>
    intro x hx
    unfold excessBits
    by_cases h : x < 2 ^ 53
    · rw [if_pos h]
      simpa using h
    · rw [if_neg h]
      have hx2 : x / 2 ≤ f := by omega
      obtain ⟨h1, h2⟩ := ih (x / 2) hx2
      have e : x / 2 ^ (excessBits f (x / 2) + 1) = x / 2 / 2 ^ excessBits f (x / 2) := by
        rw [pow_succ, Nat.mul_comm, Nat.div_div_eq_div_mul]
      rw [e]
      refine ⟨h1, fun _ => ?_⟩
      by_cases h0 : excessBits f (x / 2) = 0
      · rw [h0]
        simp only [pow_zero, Nat.div_one]
        norm_num at h ⊢
        omega
      · exact h2 h0

theorem excessBits_le (x t : Nat) (h : x < 2 ^ (53 + t)) : excessBits x x ≤ t := by
  obtain ⟨_, h2⟩ := excessBits_spec x x (le_refl x)
  by_cases h0 : excessBits x x = 0
  · omega
  · have h3 := h2 h0
    have h4 : 2 ^ 52 * 2 ^ excessBits x x ≤ x :=
      (Nat.le_div_iff_mul_le (Nat.pos_pow_of_pos _ (by norm_num))).1 h3
    rw [← pow_add] at h4
    have h5 : 2 ^ (52 + excessBits x x) < 2 ^ (53 + t) := lt_of_le_of_lt h4 h
    have := (Nat.pow_lt_pow_iff_right (by norm_num : 1 < 2)).1 h5
    omega

theorem excessBits_eq (x s : Nat) (hlo : 2 ^ (52 + s) ≤ x) (hhi : x < 2 ^ (53 + s)) :
    excessBits x x = s := by
  have hle := excessBits_le x s hhi
  obtain ⟨h1, _⟩ := excessBits_spec x x (le_refl x)
  have h3 : x < 2 ^ 53 * 2 ^ excessBits x x :=
    (Nat.div_lt_iff_lt_mul (Nat.pos_pow_of_pos _ (by norm_num))).1 h1
  rw [← pow_add] at h3
  have h5 : 2 ^ (52 + s) < 2 ^ (53 + excessBits x x) := lt_of_le_of_lt hlo h3
  have := (Nat.pow_lt_pow_iff_right (by norm_num : 1 < 2)).1 h5
  omega

theorem excessBits_small (x : Nat) (h : x < 2 ^ 53) : excessBits x x = 0 := by
  have := excessBits_le x 0 (by simpa using h)
  omega

theorem round53_small (x : Nat) (st : Bool) (h : x < 2 ^ 53) : round53 x st = x := by
  unfold round53
  rw [excessBits_small x h]
  simp [Nat.mod_one]

theorem round53_of_dvd (x t : Nat) (st : Bool) (h : x < 2 ^ (53 + t)) (hd : 2 ^ t ∣ x) :
    round53 x st = x := by
  have hle := excessBits_le x t h
  have hd2 : 2 ^ excessBits x x ∣ x := dvd_trans (Nat.pow_dvd_pow 2 hle) hd
  have hr : x % 2 ^ excessBits x x = 0 := Nat.mod_eq_zero_of_dvd hd2
  have hpos : 0 < 2 ^ excessBits x x := Nat.pos_pow_of_pos _ (by norm_num)
  unfold round53
  simp only [hr]
  rw [if_neg (by omega)]
  exact Nat.div_mul_cancel hd2

theorem round53_le_of_dvd (x y t : Nat) (st : Bool) (h : x < 2 ^ (53 + t)) (hxy : x ≤ y)
    (hd : 2 ^ t ∣ y) : round53 x st ≤ y := by
  have hle := excessBits_le x t h
  obtain ⟨m, hm⟩ := dvd_trans (Nat.pow_dvd_pow 2 hle) hd
  have hpos : 0 < 2 ^ excessBits x x := Nat.pos_pow_of_pos _ (by norm_num)
  have hdm := Nat.div_add_mod x (2 ^ excessBits x x)
  have hqle := Nat.div_mul_le_self x (2 ^ excessBits x x)
  unfold round53
  simp only []
  split
  · rename_i hc
    have hr : 0 < x % 2 ^ excessBits x x := by omega
    have hlt : x / 2 ^ excessBits x x < m := by
      by_contra hcon
      have : m ≤ x / 2 ^ excessBits x x := by omega
      have := Nat.mul_le_mul_left (2 ^ excessBits x x) this
      omega
    have := Nat.mul_le_mul_right (2 ^ excessBits x x) (Nat.succ_le_of_lt hlt)
    rw [hm, Nat.mul_comm (2 ^ excessBits x x) m]
    exact this
  · omega

theorem round53_ge_of_dvd (x y t : Nat) (st : Bool) (h : x < 2 ^ (53 + t)) (hxy : y ≤ x)
    (hd : 2 ^ t ∣ y) : y ≤ round53 x st := by
  have hle := excessBits_le x t h
  obtain ⟨m, hm⟩ := dvd_trans (Nat.pow_dvd_pow 2 hle) hd
  have hpos : 0 < 2 ^ excessBits x x := Nat.pos_pow_of_pos _ (by norm_num)
  have hmq : m ≤ x / 2 ^ excessBits x x := by
    rw [Nat.le_div_iff_mul_le hpos, Nat.mul_comm]
    omega
  have h1 := Nat.mul_le_mul_right (2 ^ excessBits x x) hmq
  have h2 : x / 2 ^ excessBits x x * 2 ^ excessBits x x ≤
      (x / 2 ^ excessBits x x + 1) * 2 ^ excessBits x x :=
    Nat.mul_le_mul_right _ (Nat.le_succ _)
  unfold round53
  simp only []
  rw [hm, Nat.mul_comm (2 ^ excessBits x x) m]
  split <;> omega

theorem round53_near (x t : Nat) (st : Bool) (h : x < 2 ^ (53 + t)) :
    x ≤ round53 x st + 2 ^ t ∧ round53 x st ≤ x + 2 ^ t := by
  have hle := excessBits_le x t h
  have hp : 2 ^ excessBits x x ≤ 2 ^ t := Nat.pow_le_pow_right (by norm_num) hle
  have hpos : 0 < 2 ^ excessBits x x := Nat.pos_pow_of_pos _ (by norm_num)
  have hqle := Nat.div_mul_le_self x (2 ^ excessBits x x)
  have hlt := Nat.lt_div_mul_add (a := x) hpos
  have hsucc : (x / 2 ^ excessBits x x + 1) * 2 ^ excessBits x x =
      x / 2 ^ excessBits x x * 2 ^ excessBits x x + 2 ^ excessBits x x := by ring
  unfold round53
  simp only []
  split <;> omega

/-! ## The printed mantissa -/

set_option maxRecDepth 100000 in
theorem decLog_table : ∀ m, m ≤ 1024 → decLog m m =
    if m < 10 then 0 else if m < 100 then 1 else if m < 1000 then 2 else 3 := by
  decide

theorem fracDigits_table : ∀ j, j < 10 → ∀ p, p < 4 →
    fracDigits (j * 10 ^ (p + 1)) (p + 2) = if j = 0 then "" else "." ++ Nat.repr j := by
  decide

theorem roundHalfEven_eq (a M : Nat) (h1 : 2 * M * 2 ^ 120 < 2 * a + 2 ^ 120)
    (h2 : 2 * a < 2 * M * 2 ^ 120 + 2 ^ 120) : roundHalfEven a (2 ^ 120) = M := by
  unfold roundHalfEven
  norm_num at h1 h2 ⊢
  split <;> omega

theorem divDouble_tenths (m j : Nat) (hj : j < 10) (h1 : 1 ≤ 10 * m + j)
    (h2 : 10 * m + j ≤ 10240) :
    (divDouble (10 * m + j) 10).scale = 120 ∧
    (j = 0 → (divDouble (10 * m + j) 10).num = m * 2 ^ 120) ∧
    m * 2 ^ 120 + j * (2 ^ 120 / 10) ≤ (divDouble (10 * m + j) 10).num + 2 ^ 78 + 1 ∧
    (divDouble (10 * m + j) 10).num ≤ m * 2 ^ 120 + j * (2 ^ 120 / 10) + 2 ^ 78 + 9 := by
  have hx : (10 * m + j) * 2 ^ 120 / 10 < 2 ^ (53 + 78) := by
    norm_num
    omega
  have hn := round53_near _ 78 (decide ((10 * m + j) * 2 ^ 120 % 10 ≠ 0)) hx
  unfold divDouble
  rw [if_neg (by omega)]
  refine ⟨rfl, fun h0 => ?_, ?_, ?_⟩
  · have hd : 2 ^ 78 ∣ (10 * m + j) * 2 ^ 120 / 10 := by
      refine ⟨m * 2 ^ 42, ?_⟩
      subst h0
      norm_num
      omega
    show round53 _ _ = _
    rw [round53_of_dvd _ 78 _ hx hd]
    subst h0
    norm_num
    omega
  · show _ ≤ round53 _ _ + _ + _
    norm_num at hn ⊢
    omega
  · show round53 _ _ ≤ _
    norm_num at hn ⊢
    omega

theorem printDouble_tenths_0 (m j : Nat) (hj : j < 10) (hlo : 1 ≤ m) (hhi : m < 10)
    (h2 : 10 * m + j ≤ 10240) :
    printDouble (divDouble (10 * m + j) 10) =
      Nat.repr m ++ if j = 0 then "" else "." ++ Nat.repr j := by
  obtain ⟨hsc, hex, n1, n2⟩ := divDouble_tenths m j hj (by omega) h2
  generalize divDouble (10 * m + j) 10 = d at *
  obtain ⟨N, sc⟩ := d
  simp only at n1 n2 hsc hex
  subst hsc
  have hlog : decLog m m = 0 := by
    rw [decLog_table m (by omega), if_pos (by omega)]
  have hfr := fracDigits_table j hj (3 - 0) (by omega)
  norm_num at n1 n2 hex hfr
  have hN0 : 2 ^ 120 ≤ N := by
    norm_num
    omega
  have hdiv : N / 2 ^ 120 = m := by
    norm_num
    by_cases h0 : j = 0
    · have := hex h0
      omega
    · omega
  have hX0 : decExp0 ⟨N, 120⟩ = 0 := by
    unfold decExp0
    rw [if_pos hN0]
    simp only [hdiv]
    rw [hlog]
    rfl
  have hp : (5 - (0 : Int)).toNat = 5 := by decide
  have hD : sigDigits ⟨N, 120⟩ 0 = (10 * m + j) * 10000 := by
    unfold sigDigits
    rw [if_pos (by norm_num), hp]
    apply roundHalfEven_eq
    · norm_num
      by_cases h0 : j = 0
      · have := hex h0
        omega
      · omega
    · norm_num
      by_cases h0 : j = 0
      · have := hex h0
        omega
      · omega
  have hX : decExp ⟨N, 120⟩ = 0 := by
    unfold decExp
    rw [hX0, hD, if_pos (by omega)]
  unfold printDouble
  rw [if_neg (by show N ≠ 0; omega)]
  simp only [hX, hD]
  rw [if_pos (by norm_num)]
  have e1 : (10 * m + j) * 10000 / 10 ^ 5 = m := by
    norm_num
    omega
  have e2 : (10 * m + j) * 10000 % 10 ^ 5 = j * 10000 := by
    norm_num
    omega
  rw [hp, e1, e2, hfr]

theorem printDouble_tenths_1 (m j : Nat) (hj : j < 10) (hlo : 10 ≤ m) (hhi : m < 100)
    (h2 : 10 * m + j ≤ 10240) :
    printDouble (divDouble (10 * m + j) 10) =
      Nat.repr m ++ if j = 0 then "" else "." ++ Nat.repr j := by
  obtain ⟨hsc, hex, n1, n2⟩ := divDouble_tenths m j hj (by omega) h2
  generalize divDouble (10 * m + j) 10 = d at *
  obtain ⟨N, sc⟩ := d
  simp only at n1 n2 hsc hex
  subst hsc
  have hlog : decLog m m = 1 := by
    rw [decLog_table m (by omega), if_neg (by omega), if_pos (by omega)]
  have hfr := fracDigits_table j hj (3 - 1) (by omega)
  norm_num at n1 n2 hex hfr
  have hN0 : 2 ^ 120 ≤ N := by
    norm_num
    omega
  have hdiv : N / 2 ^ 120 = m := by
    norm_num
    by_cases h0 : j = 0
    · have := hex h0
      omega
    · omega
  have hX0 : decExp0 ⟨N, 120⟩ = 1 := by
    unfold decExp0
    rw [if_pos hN0]
    simp only [hdiv]
    rw [hlog]
    rfl
  have hp : (5 - (1 : Int)).toNat = 4 := by decide
  have hD : sigDigits ⟨N, 120⟩ 1 = (10 * m + j) * 1000 := by
    unfold sigDigits
    rw [if_pos (by norm_num), hp]
    apply roundHalfEven_eq
    · norm_num
      by_cases h0 : j = 0
      · have := hex h0
        omega
      · omega
    · norm_num
      by_cases h0 : j = 0
      · have := hex h0
        omega
      · omega
  have hX : decExp ⟨N, 120⟩ = 1 := by
    unfold decExp
    rw [hX0, hD, if_pos (by omega)]
  unfold printDouble
  rw [if_neg (by show N ≠ 0; omega)]
  simp only [hX, hD]
  rw [if_pos (by norm_num)]
  have e1 : (10 * m + j) * 1000 / 10 ^ 4 = m := by
    norm_num
    omega
  have e2 : (10 * m + j) * 1000 % 10 ^ 4 = j * 1000 := by
    norm_num
    omega
  rw [hp, e1, e2, hfr]

theorem printDouble_tenths_2 (m j : Nat) (hj : j < 10) (hlo : 100 ≤ m) (hhi : m < 1000)
    (h2 : 10 * m + j ≤ 10240) :
    printDouble (divDouble (10 * m + j) 10) =
      Nat.repr m ++ if j = 0 then "" else "." ++ Nat.repr j := by
  obtain ⟨hsc, hex, n1, n2⟩ := divDouble_tenths m j hj (by omega) h2
  generalize divDouble (10 * m + j) 10 = d at *
  obtain ⟨N, sc⟩ := d
  simp only at n1 n2 hsc hex
  subst hsc
  have hlog : decLog m m = 2 := by
    rw [decLog_table m (by omega), if_neg (by omega), if_neg (by omega), if_pos (by omega)]
  have hfr := fracDigits_table j hj (3 - 2) (by omega)
  norm_num at n1 n2 hex hfr
  have hN0 : 2 ^ 120 ≤ N := by
    norm_num
    omega
  have hdiv : N / 2 ^ 120 = m := by
    norm_num
    by_cases h0 : j = 0
    · have := hex h0
      omega
    · omega
  have hX0 : decExp0 ⟨N, 120⟩ = 2 := by
    unfold decExp0
    rw [if_pos hN0]
    simp only [hdiv]
    rw [hlog]
    rfl
  have hp : (5 - (2 : Int)).toNat = 3 := by decide
  have hD : sigDigits ⟨N, 120⟩ 2 = (10 * m + j) * 100 := by
    unfold sigDigits
    rw [if_pos (by norm_num), hp]
    apply roundHalfEven_eq
    · norm_num
      by_cases h0 : j = 0
      · have := hex h0
        omega
      · omega
    · norm_num
      by_cases h0 : j = 0
      · have := hex h0
        omega
      · omega
  have hX : decExp ⟨N, 120⟩ = 2 := by
    unfold decExp
    rw [hX0, hD, if_pos (by omega)]
  unfold printDouble
  rw [if_neg (by show N ≠ 0; omega)]
  simp only [hX, hD]
  rw [if_pos (by norm_num)]
  have e1 : (10 * m + j) * 100 / 10 ^ 3 = m := by
    norm_num
    omega
  have e2 : (10 * m + j) * 100 % 10 ^ 3 = j * 100 := by
    norm_num
    omega
  rw [hp, e1, e2, hfr]

theorem printDouble_tenths_3 (m j : Nat) (hj : j < 10) (hlo : 1000 ≤ m) (hhi : m < 10000)
    (h2 : 10 * m + j ≤ 10240) :
    printDouble (divDouble (10 * m + j) 10) =
      Nat.repr m ++ if j = 0 then "" else "." ++ Nat.repr j := by
  obtain ⟨hsc, hex, n1, n2⟩ := divDouble_tenths m j hj (by omega) h2
  generalize divDouble (10 * m + j) 10 = d at *
  obtain ⟨N, sc⟩ := d
  simp only at n1 n2 hsc hex
  subst hsc
  have hlog : decLog m m = 3 := by
    rw [decLog_table m (by omega), if_neg (by omega), if_neg (by omega), if_neg (by omega)]
  have hfr := fracDigits_table j hj (3 - 3) (by omega)
  norm_num at n1 n2 hex hfr
  have hN0 : 2 ^ 120 ≤ N := by
    norm_num
    omega
  have hdiv : N / 2 ^ 120 = m := by
    norm_num
    by_cases h0 : j = 0
    · have := hex h0
      omega
    · omega
  have hX0 : decExp0 ⟨N, 120⟩ = 3 := by
    unfold decExp0
    rw [if_pos hN0]
    simp only [hdiv]
    rw [hlog]
    rfl
  have hp : (5 - (3 : Int)).toNat = 2 := by decide
  have hD : sigDigits ⟨N, 120⟩ 3 = (10 * m + j) * 10 := by
    unfold sigDigits
    rw [if_pos (by norm_num), hp]
    apply roundHalfEven_eq
    · norm_num
      by_cases h0 : j = 0
      · have := hex h0
        omega
      · omega
    · norm_num
      by_cases h0 : j = 0
      · have := hex h0
        omega
      · omega
  have hX : decExp ⟨N, 120⟩ = 3 := by
    unfold decExp
    rw [hX0, hD, if_pos (by omega)]
  unfold printDouble
  rw [if_neg (by show N ≠ 0; omega)]
  simp only [hX, hD]
  rw [if_pos (by norm_num)]
  have e1 : (10 * m + j) * 10 / 10 ^ 2 = m := by
    norm_num
    omega
  have e2 : (10 * m + j) * 10 % 10 ^ 2 = j * 10 := by
    norm_num
    omega
  rw [hp, e1, e2, hfr]

theorem printDouble_tenths (K : Nat) (h : K = 0 ∨ (10 ≤ K ∧ K ≤ 10240)) :
    printDouble (divDouble K 10) = showTenths K := by
  rcases h with h | ⟨h1, h2⟩
  · subst h
    decide
  · have hK : 10 * (K / 10) + K % 10 = K := Nat.div_add_mod K 10
    have hj : K % 10 < 10 := Nat.mod_lt _ (by norm_num)
    unfold showTenths
    rw [← hK] at h2
    by_cases c0 : K / 10 < 10
    · rw [← printDouble_tenths_0 (K / 10) (K % 10) hj (by omega) c0 h2, hK]
    · by_cases c1 : K / 10 < 100
      · rw [← printDouble_tenths_1 (K / 10) (K % 10) hj (by omega) c1 h2, hK]
      · by_cases c2 : K / 10 < 1000
        · rw [← printDouble_tenths_2 (K / 10) (K % 10) hj (by omega) c2 h2, hK]
        · rw [← printDouble_tenths_3 (K / 10) (K % 10) hj (by omega) (by omega) h2, hK]

/-! ## The loop and the mantissa of `HumanReadable` -/

theorem dyadic_eq (d : Dyadic) (a b : Nat) (h1 : d.num = a) (h2 : d.scale = b) :
    d = Dyadic.mk a b := by
  cases d
  simp only at h1 h2
  rw [h1, h2]

theorem scaleLoop_exit (fuel : Nat) : ∀ (d : Dyadic) (o : Nat),
    d.num < 1024 * 2 ^ (d.scale + 10 * fuel) →
    (scaleLoop fuel d o).1.num = d.num ∧
    (scaleLoop fuel d o).1.num < 1024 * 2 ^ (scaleLoop fuel d o).1.scale ∧
    o ≤ (scaleLoop fuel d o).2 ∧
    (scaleLoop fuel d o).1.scale = d.scale + 10 * ((scaleLoop fuel d o).2 - o) ∧
    ((scaleLoop fuel d o).2 ≠ o → 2 ^ (scaleLoop fuel d o).1.scale ≤ d.num) := by
  induction fuel with
  | zero =>
    intro d o h
    have e : scaleLoop 0 d o = (d, o) := rfl
    rw [e]
    exact ⟨rfl, by simpa using h, le_refl _, by simp, fun hne => absurd rfl hne⟩
  | succ f ih =>
    intro d o h
    unfold scaleLoop
    by_cases hge : d.ge1024 = true
    · rw [if_pos hge]
      have hfuel : d.div1024.num < 1024 * 2 ^ (d.div1024.scale + 10 * f) := by
        have e : d.div1024.scale + 10 * f = d.scale + 10 * (f + 1) := by
          simp only [Dyadic.div1024]
          ring
        rw [e]
        exact h
      obtain ⟨h1, h2, h3, h4, h5⟩ := ih d.div1024 (o + 1) hfuel
      have hge2 : 1024 * 2 ^ d.scale ≤ d.num := by
        simpa [Dyadic.ge1024] using hge
      generalize scaleLoop f d.div1024 (o + 1) = r at h1 h2 h3 h4 h5 ⊢
      simp only [Dyadic.div1024] at h1 h4 h5
      refine ⟨h1, h2, by omega, by omega, fun _ => ?_⟩
      by_cases hk : r.2 = o + 1
      · rw [h4, hk]
        simp only [Nat.sub_self, Nat.mul_zero, Nat.add_zero]
        rw [pow_add]
        omega
      · exact h5 hk
    · rw [if_neg hge]
      have hlt : d.num < 1024 * 2 ^ d.scale := by
        simpa [Dyadic.ge1024] using hge
      exact ⟨rfl, hlt, le_refl _, by simp, fun hne => absurd rfl hne⟩

/-- The loop of `operator<<` leaves by its own test: with `N` the byte count
as a `double`, it ends with `mantissa = N / 1024 ^ o < 1024`, and
`1 ≤ mantissa` when `o` is not zero. -/
theorem scaled_spec (n : Nat) :
    (HumanReadable.mk n).scaled.1.num = round53 n false ∧
    (HumanReadable.mk n).scaled.1.scale = 10 * (HumanReadable.mk n).unitIndex ∧
    round53 n false < 1024 * 2 ^ (10 * (HumanReadable.mk n).unitIndex) ∧
    ((HumanReadable.mk n).unitIndex ≠ 0 →
      2 ^ (10 * (HumanReadable.mk n).unitIndex) ≤ round53 n false) := by
  have hfuel : (toDouble n).num < 1024 * 2 ^ ((toDouble n).scale + 10 * (toDouble n).num) := by
    have h1 : (toDouble n).num < 2 ^ (toDouble n).num := Nat.lt_two_pow _
    have h2 : 2 ^ (toDouble n).num ≤ 2 ^ ((toDouble n).scale + 10 * (toDouble n).num) :=
      Nat.pow_le_pow_right (by norm_num) (by omega)
    have h3 : 0 < 2 ^ ((toDouble n).scale + 10 * (toDouble n).num) :=
      Nat.pos_pow_of_pos _ (by norm_num)
    omega
  obtain ⟨h1, h2, _, h4, h5⟩ := scaleLoop_exit (toDouble n).num (toDouble n) 0 hfuel
  have hs : (HumanReadable.mk n).scaled.1.scale = 10 * (HumanReadable.mk n).unitIndex := by
    simp only [HumanReadable.unitIndex, HumanReadable.scaled]
    rw [h4]
    simp [toDouble]
  refine ⟨h1, hs, ?_, fun hne => ?_⟩
  · have := h2
    rw [h1] at this
    rw [← hs]
    exact this
  · rw [← hs]
    exact h5 hne

theorem tenths_bounds (N sc : Nat) (hlt : N < 1024 * 2 ^ sc) :
    (Dyadic.mk N sc).mul10.ceil ≤ 10240 ∧ (2 ^ sc ≤ N → 10 ≤ (Dyadic.mk N sc).mul10.ceil) := by
  have hpos : 0 < 2 ^ sc := Nat.pos_pow_of_pos _ (by norm_num)
  have hx : N * 10 < 2 ^ (53 + (sc + 1)) := by
    have e : 2 ^ (53 + (sc + 1)) = 2 ^ 54 * 2 ^ sc := by
      rw [← pow_add]
      congr 1
      omega
    rw [e]
    norm_num
    omega
  have hup : round53 (N * 10) false ≤ 5120 * 2 ^ (sc + 1) := by
    refine round53_le_of_dvd _ _ (sc + 1) _ hx ?_ (Dvd.intro_left _ rfl)
    rw [pow_succ]
    omega
  rw [pow_succ] at hup
  simp only [Dyadic.mul10, Dyadic.ceil]
  constructor
  · rw [← Nat.lt_succ_iff, Nat.div_lt_iff_lt_mul hpos]
    have : (10240 : Nat).succ * 2 ^ sc = 10240 * 2 ^ sc + 2 ^ sc := by
      rw [Nat.succ_mul]
    omega
  · intro hge
    have hlo : 5 * 2 ^ (sc + 1) ≤ round53 (N * 10) false := by
      refine round53_ge_of_dvd _ _ (sc + 1) _ hx ?_ (Dvd.intro_left _ rfl)
      rw [pow_succ]
      omega
    rw [pow_succ] at hlo
    rw [Nat.le_div_iff_mul_le hpos]
    omega

theorem tenths_range (n : Nat) :
    (HumanReadable.mk n).tenths ≤ 10240 ∧
      ((HumanReadable.mk n).tenths = 0 ∨ 10 ≤ (HumanReadable.mk n).tenths) := by
  obtain ⟨h1, h2, h3, h4⟩ := scaled_spec n
  have hd : (HumanReadable.mk n).scaled.1 =
      Dyadic.mk (round53 n false) (10 * (HumanReadable.mk n).unitIndex) := by
    rw [← h1, ← h2]
  obtain ⟨b1, b2⟩ := tenths_bounds (round53 n false) (10 * (HumanReadable.mk n).unitIndex) h3
  simp only [HumanReadable.tenths]
  rw [hd]
  refine ⟨b1, ?_⟩
  by_cases hk : (HumanReadable.mk n).unitIndex = 0
  · by_cases h0 : round53 n false = 0
    · left
      rw [hk, h0]
      decide
    · right
      apply b2
      rw [hk]
      simp only [Nat.mul_zero, pow_zero]
      omega
  · right
    exact b2 (h4 hk)

theorem mantissaText_eq (n : Nat) :
    (HumanReadable.mk n).mantissaText = showTenths (HumanReadable.mk n).tenths := by
  obtain ⟨h1, h2⟩ := tenths_range n
  simp only [HumanReadable.mantissaText]
  apply printDouble_tenths
  omega

theorem excessBits_bound (x : Nat) : x < 2 ^ (53 + excessBits x x) := by
  obtain ⟨h1, _⟩ := excessBits_spec x x (le_refl x)
  have h3 : x < 2 ^ 53 * 2 ^ excessBits x x :=
    (Nat.div_lt_iff_lt_mul (Nat.pos_pow_of_pos _ (by norm_num))).1 h1
  rw [← pow_add] at h3
  exact h3

theorem round53_ge_pow (x p : Nat) (st : Bool) (h : 2 ^ p ≤ x) : 2 ^ p ≤ round53 x st := by
  by_cases hp : excessBits x x ≤ p
  · exact round53_ge_of_dvd x (2 ^ p) _ st (excessBits_bound x) h (Nat.pow_dvd_pow 2 hp)
  · obtain ⟨_, h2⟩ := excessBits_spec x x (le_refl x)
    have h3 : 2 ^ 52 * 2 ^ excessBits x x ≤ x :=
      (Nat.le_div_iff_mul_le (Nat.pos_pow_of_pos _ (by norm_num))).1 (h2 (by omega))
    rw [← pow_add] at h3
    have h4 := round53_ge_of_dvd x (2 ^ (52 + excessBits x x)) _ st (excessBits_bound x) h3
      (Nat.pow_dvd_pow 2 (by omega))
    have h5 : 2 ^ p ≤ 2 ^ (52 + excessBits x x) := Nat.pow_le_pow_right (by norm_num) (by omega)
    omega

theorem round53_le_pow (x p : Nat) (st : Bool) (h : x ≤ 2 ^ p) : round53 x st ≤ 2 ^ p := by
  by_cases hp : excessBits x x ≤ p
  · exact round53_le_of_dvd x (2 ^ p) _ st (excessBits_bound x) h (Nat.pow_dvd_pow 2 hp)
  · obtain ⟨_, h2⟩ := excessBits_spec x x (le_refl x)
    have h3 : 2 ^ 52 * 2 ^ excessBits x x ≤ x :=
      (Nat.le_div_iff_mul_le (Nat.pos_pow_of_pos _ (by norm_num))).1 (h2 (by omega))
    rw [← pow_add] at h3
    have h5 : 2 ^ p < 2 ^ (52 + excessBits x x) := Nat.pow_lt_pow_right (by norm_num) (by omega)
    omega

/-- Below `2 ^ 60 - 64` the conversion to `double` stays below `2 ^ 60`. -/
theorem round53_lt_exa (n : Nat) (h : n < 2 ^ 60 - 64) : round53 n false < 2 ^ 60 := by
  by_cases h59 : n ≤ 2 ^ 59
  · have := round53_le_pow n 59 false h59
    norm_num at this ⊢
    omega
  · have hs : excessBits n n = 7 := excessBits_eq n 7 (by norm_num at h59 ⊢; omega)
      (by norm_num at h ⊢; omega)
    unfold round53
    rw [hs]
    norm_num at h h59 ⊢
    split <;> omega

/-- From `2 ^ 60 - 64` up to `2 ^ 60` the conversion to `double` gives `2 ^ 60`. -/
theorem round53_eq_exa (n : Nat) (h1 : 2 ^ 60 - 64 ≤ n) (h2 : n < 2 ^ 60) :
    round53 n false = 2 ^ 60 := by
  have hs : excessBits n n = 7 := excessBits_eq n 7 (by norm_num at h1 ⊢; omega)
    (by norm_num at h2 ⊢; omega)
  unfold round53
  rw [hs]
  norm_num at h1 h2 ⊢
  split <;> omega

theorem pow1024 (k : Nat) : 1024 ^ k = 2 ^ (10 * k) := by
  rw [pow_mul]
  norm_num

theorem unitIndex_le_six (n : Nat) (h : n < 2 ^ 64) : (HumanReadable.mk n).unitIndex ≤ 6 := by
  obtain ⟨_, _, _, h4⟩ := scaled_spec n
  by_contra hk
  have h7 : 7 ≤ (HumanReadable.mk n).unitIndex := by omega
  have h5 := h4 (by omega)
  have h6 : round53 n false ≤ 2 ^ 64 := round53_le_pow n 64 false (le_of_lt h)
  have h8 : 2 ^ 70 ≤ 2 ^ (10 * (HumanReadable.mk n).unitIndex) :=
    Nat.pow_le_pow_right (by norm_num) (by omega)
  have h9 : (2 : Nat) ^ 64 < 2 ^ 70 := by norm_num
  omega

theorem unitIndex_pos (n : Nat) (h : 1024 ≤ n) : (HumanReadable.mk n).unitIndex ≠ 0 := by
  obtain ⟨_, _, h3, _⟩ := scaled_spec n
  intro hk
  rw [hk] at h3
  have := round53_ge_pow n 10 false (by norm_num; exact h)
  norm_num at this h3
  omega

theorem unitIndex_small (n : Nat) (h : n < 1024) : (HumanReadable.mk n).unitIndex = 0 := by
  obtain ⟨_, _, _, h4⟩ := scaled_spec n
  by_contra hk
  have h5 := h4 hk
  rw [round53_small n false (by norm_num; omega)] at h5
  have h8 : 2 ^ 10 ≤ 2 ^ (10 * (HumanReadable.mk n).unitIndex) :=
    Nat.pow_le_pow_right (by norm_num) (by omega)
  norm_num at h8
  omega

/-- The unit index brackets the byte count as a `double`. -/
theorem unitIndex_bracket (n : Nat) (h1 : 1 ≤ n) :
    1024 ^ (HumanReadable.mk n).unitIndex ≤ round53 n false ∧
      round53 n false < 1024 ^ ((HumanReadable.mk n).unitIndex + 1) := by
  obtain ⟨_, _, h3, h4⟩ := scaled_spec n
  rw [pow1024, pow1024]
  constructor
  · by_cases hk : (HumanReadable.mk n).unitIndex = 0
    · rw [hk]
      have := round53_ge_pow n 0 false (by simpa using h1)
      simpa using this
    · exact h4 hk
  · have e : 10 * ((HumanReadable.mk n).unitIndex + 1) = 10 + 10 * (HumanReadable.mk n).unitIndex := by
      ring
    rw [e, pow_add]
    norm_num
    exact h3

theorem nat_ceil_div (a b : Nat) (hb : 0 < b) : ⌈(a : ℚ) / (b : ℚ)⌉₊ = (a + (b - 1)) / b := by
  apply le_antisymm
  · rw [Nat.ceil_le, div_le_iff₀ (by exact_mod_cast hb)]
    have h := Nat.lt_div_mul_add (a := a + (b - 1)) hb
    have : a ≤ (a + (b - 1)) / b * b := by omega
    exact_mod_cast this
  · rw [← Nat.lt_succ_iff, Nat.div_lt_iff_lt_mul hb]
    have h1 : (a : ℚ) / (b : ℚ) ≤ ⌈(a : ℚ) / (b : ℚ)⌉₊ := Nat.le_ceil _
    rw [div_le_iff₀ (by exact_mod_cast hb)] at h1
    have h2 : a ≤ ⌈(a : ℚ) / (b : ℚ)⌉₊ * b := by exact_mod_cast h1
    rw [Nat.succ_mul]
    omega

/-! ## The walking pass -/

theorem writeEntry_toEntry (w : CSVWriter) (gui : Gui) (f : FileInfo) :
    w.writeEntry gui f.toEntry =
      (⟨w.file ++ f.line, w.totalEntries, (w.processedEntries + 1) % SIZE_MOD⟩,
        CSVWriter.updateProgress
          ⟨w.file ++ f.line, w.totalEntries, (w.processedEntries + 1) % SIZE_MOD⟩ gui,
        none) := by
  simp only [CSVWriter.writeEntry, FileInfo.toEntry, FileInfo.line, String.append_assoc]

theorem processLoop_writeAll (fs : List FileInfo) : ∀ (rest : List Step) (w : CSVWriter)
    (gui : Gui), processLoop (fs.map FileInfo.toStep ++ rest) w gui =
      processLoop rest (writeAll fs (w, gui)).1 (writeAll fs (w, gui)).2 := by
  induction fs with
  | nil =>
    intro rest w gui
    rfl
  | cons f fs ih =>
    intro rest w gui
    simp only [List.map_cons, List.cons_append, FileInfo.toStep, processLoop]
    rw [writeEntry_toEntry]
    simp only [writeAll]
    exact ih rest _ _

theorem join_cons (a : String) (l : List String) :
    String.join (a :: l) = a ++ String.join l := by
  apply String.ext
  simp [String.join_eq]

theorem updateProgress_progress (w : CSVWriter) (gui : Gui) :
    (w.updateProgress gui).progress = gui.progress ++
      (if 0 < w.totalEntries then [percentage w.totalEntries w.processedEntries] else []) := by
  unfold CSVWriter.updateProgress
  split <;> simp

theorem updateProgress_log (w : CSVWriter) (gui : Gui) :
    (w.updateProgress gui).log = gui.log := by
  unfold CSVWriter.updateProgress
  split <;> rfl

theorem updateProgress_text (w : CSVWriter) (gui : Gui) :
    (w.updateProgress gui).outputPathText = gui.outputPathText ∧
      (w.updateProgress gui).openEnabled = gui.openEnabled := by
  unfold CSVWriter.updateProgress
  split <;> exact ⟨rfl, rfl⟩

theorem writeAll_file (fs : List FileInfo) : ∀ (s : CSVWriter × Gui),
    (writeAll fs s).1.file = s.1.file ++ String.join (fs.map FileInfo.line) := by
  induction fs with
  | nil =>
    intro s
    simp [writeAll, String.join]
  | cons f fs ih =>
    intro s
    simp only [writeAll]
    rw [ih]
    simp only [List.map_cons, join_cons, String.append_assoc]

theorem writeAll_total (fs : List FileInfo) : ∀ (s : CSVWriter × Gui),
    (writeAll fs s).1.totalEntries = s.1.totalEntries := by
  induction fs with
  | nil =>
    intro s
    rfl
  | cons f fs ih =>
    intro s
    simp only [writeAll]
    rw [ih]

theorem writeAll_processed (fs : List FileInfo) : ∀ (s : CSVWriter × Gui),
    s.1.processedEntries < SIZE_MOD →
    (writeAll fs s).1.processedEntries = (s.1.processedEntries + fs.length) % SIZE_MOD := by
  induction fs with
  | nil =>
    intro s hs
    simp only [writeAll, List.length_nil, Nat.add_zero]
    exact (Nat.mod_eq_of_lt hs).symm
  | cons f fs ih =>
    intro s _
    simp only [writeAll]
    rw [ih _ (Nat.mod_lt _ (by decide))]
    simp only [List.length_cons, Nat.mod_add_mod]
    congr 1
    omega

theorem writeAll_log (fs : List FileInfo) : ∀ (s : CSVWriter × Gui),
    (writeAll fs s).2.log = s.2.log ++ fs.map FileInfo.logLine := by
  induction fs with
  | nil =>
    intro s
    simp [writeAll]
  | cons f fs ih =>
    intro s
    simp only [writeAll]
    rw [ih]
    simp [appendLog, updateProgress_log]

theorem writeAll_text (fs : List FileInfo) : ∀ (s : CSVWriter × Gui),
    (writeAll fs s).2.outputPathText = s.2.outputPathText ∧
      (writeAll fs s).2.openEnabled = s.2.openEnabled := by
  induction fs with
  | nil =>
    intro s
    exact ⟨rfl, rfl⟩
  | cons f fs ih =>
    intro s
    simp only [writeAll]
    obtain ⟨h1, h2⟩ := ih (⟨s.1.file ++ f.line, s.1.totalEntries,
      (s.1.processedEntries + 1) % SIZE_MOD⟩,
      appendLog (CSVWriter.updateProgress ⟨s.1.file ++ f.line, s.1.totalEntries,
        (s.1.processedEntries + 1) % SIZE_MOD⟩ s.2) f.logLine)
    rw [h1, h2]
    simp only [appendLog]
    exact updateProgress_text _ _

theorem writeAll_progress (fs : List FileInfo) : ∀ (s : CSVWriter × Gui),
    (writeAll fs s).2.progress = s.2.progress ++
      (if 0 < s.1.totalEntries then
        (List.range fs.length).map
          (fun i => percentage s.1.totalEntries ((s.1.processedEntries + (i + 1)) % SIZE_MOD))
      else []) := by
  induction fs with
  | nil =>
    intro s
    simp [writeAll]
  | cons f fs ih =>
    intro s
    simp only [writeAll]
    rw [ih]
    simp only [appendLog, updateProgress_progress, List.length_cons]
    by_cases ht : 0 < s.1.totalEntries
    · simp only [ht, if_true, List.append_assoc, List.range_succ_eq_map, List.map_cons,
        List.map_map, List.singleton_append]
      congr 2
      apply List.map_congr_left
      intro i _
      simp only [Function.comp, Nat.mod_add_mod]
      congr 2
      omega
    · simp [ht]

/-! ## The size formatter: claims C1 to C5 -/

/-- C1: for every byte count `n < 1024`, the text `operator<<` writes for
`HumanReadable{n}` is the decimal digits of `n` followed by the letter `B`,
with nothing after it. -/
theorem C1_bytes_below_1024 (n : Nat) (h : n < 1024) :
    (HumanReadable.mk n).output = Nat.repr n ++ "B" := by
  have hk := unitIndex_small n h
  obtain ⟨h1, h2, _, _⟩ := scaled_spec n
  have hd : (HumanReadable.mk n).scaled.1 = Dyadic.mk n 0 := by
    rw [hk] at h2
    rw [round53_small n false (by norm_num; omega)] at h1
    exact dyadic_eq _ _ _ h1 h2
  have ht : (HumanReadable.mk n).tenths = 10 * n := by
    simp only [HumanReadable.tenths, hd, Dyadic.mul10, Dyadic.ceil]
    rw [round53_small (n * 10) false (by norm_num; omega)]
    simp only [pow_zero, Nat.sub_self, Nat.add_zero, Nat.div_one]
    omega
  have hm : (HumanReadable.mk n).mantissaText = Nat.repr n := by
    rw [mantissaText_eq, ht]
    unfold showTenths
    rw [if_pos (by omega)]
    have e : 10 * n / 10 = n := by omega
    rw [e]
    exact String.append_empty _
  unfold HumanReadable.output
  simp only [hk, hm]
  rfl

theorem C1_bytes_below_1024_witness :
    512 < 1024 ∧ (HumanReadable.mk 512).output = "512B" :=
  ⟨by decide, (C1_bytes_below_1024 512 (by decide)).trans (by decide)⟩

/-- C2, as the spec states it, fails: for 4400000 bytes the output is
`4.2MB (4400000)`, with a `B` after the unit letter and none inside the
parentheses, not `4.2M (4400000B)`. -/
theorem C2_counterexample :
    (HumanReadable.mk 4400000).output = "4.2MB (4400000)" ∧
      (HumanReadable.mk 4400000).output ≠ "4.2M (4400000B)" := by
  decide

/-- C2, amended: for every byte count `n` with `1024 ≤ n < 2 ^ 64` the output
is the mantissa (a decimal number with at most one decimal place), one unit
letter out of `K, M, G, T, P, E`, the letter `B`, a space, and the decimal byte
count between parentheses. -/
theorem C2_scaled_format (n : Nat) (h1 : 1024 ≤ n) (h2 : n < 2 ^ 64) :
    (HumanReadable.mk n).output =
        showTenths (HumanReadable.mk n).tenths
          ++ String.singleton (unitLetter (HumanReadable.mk n).unitIndex)
          ++ "B (" ++ Nat.repr n ++ ")" ∧
      unitLetter (HumanReadable.mk n).unitIndex ∈ ['K', 'M', 'G', 'T', 'P', 'E'] := by
  have hpos := unitIndex_pos n h1
  have hle := unitIndex_le_six n h2
  constructor
  · unfold HumanReadable.output
    simp only [hpos, ne_eq, not_false_eq_true, if_true, mantissaText_eq]
  · generalize (HumanReadable.mk n).unitIndex = k at hpos hle
    interval_cases k
    · exact absurd rfl hpos
    all_goals decide

theorem C2_scaled_format_witness :
    (1024 ≤ 4400000 ∧ 4400000 < 2 ^ 64) ∧
      (HumanReadable.mk 4400000).output =
        showTenths (HumanReadable.mk 4400000).tenths
          ++ String.singleton (unitLetter (HumanReadable.mk 4400000).unitIndex)
          ++ "B (" ++ Nat.repr 4400000 ++ ")" ∧
      unitLetter (HumanReadable.mk 4400000).unitIndex ∈ ['K', 'M', 'G', 'T', 'P', 'E'] :=
  ⟨by decide, C2_scaled_format 4400000 (by decide) (by decide)⟩

/-- C3, as the spec states it, fails: `2 ^ 53 + 1` bytes become the double
`2 ^ 53`, so the mantissa printed with unit index 5 is `8`, while
`(2 ^ 53 + 1) / 1024 ^ 5` rounded up to one decimal place is `8.1`. -/
theorem C3_counterexample :
    (HumanReadable.mk 9007199254740993).unitIndex = 5 ∧
      (HumanReadable.mk 9007199254740993).mantissaText = "8" ∧
      (HumanReadable.mk 9007199254740993).tenths = 80 ∧
      (10 * 9007199254740993 + (1024 ^ 5 - 1)) / 1024 ^ 5 = 81 ∧
      showTenths 81 = "8.1" := by
  decide

/-- C3, amended: for every byte count `n` with `1024 ≤ n < 2 ^ 50` the
mantissa printed is `n / 1024 ^ k` rounded up to one decimal place, that is
`⌈10 * n / 1024 ^ k⌉ / 10`, where `k` is the index of the unit letter. -/
theorem C3_mantissa_ceiling (n : Nat) (h1 : 1024 ≤ n) (h2 : n < 2 ^ 50) :
    (HumanReadable.mk n).tenths =
        ⌈((10 * n : Nat) : ℚ) / ((1024 ^ (HumanReadable.mk n).unitIndex : Nat) : ℚ)⌉₊ ∧
      (HumanReadable.mk n).mantissaText = showTenths (HumanReadable.mk n).tenths := by
  refine ⟨?_, mantissaText_eq n⟩
  obtain ⟨e1, e2, _, _⟩ := scaled_spec n
  have hd : (HumanReadable.mk n).scaled.1 =
      Dyadic.mk n (10 * (HumanReadable.mk n).unitIndex) := by
    rw [round53_small n false (by norm_num at h2 ⊢; omega)] at e1
    exact dyadic_eq _ _ _ e1 e2
  have hr : round53 (n * 10) false = n * 10 :=
    round53_of_dvd (n * 10) 1 false (by norm_num at h2 ⊢; omega) (Dvd.intro_left (n * 5) (by ring))
  rw [nat_ceil_div _ _ (Nat.pos_pow_of_pos _ (by norm_num))]
  simp only [HumanReadable.tenths, hd, Dyadic.mul10, Dyadic.ceil, hr, pow1024]
  rw [Nat.mul_comm n 10]

theorem C3_mantissa_ceiling_witness :
    (1024 ≤ 1536 ∧ 1536 < 2 ^ 50) ∧
      (HumanReadable.mk 1536).tenths =
        ⌈((10 * 1536 : Nat) : ℚ) / ((1024 ^ (HumanReadable.mk 1536).unitIndex : Nat) : ℚ)⌉₊ ∧
      (HumanReadable.mk 1536).mantissaText = showTenths (HumanReadable.mk 1536).tenths :=
  ⟨by decide, C3_mantissa_ceiling 1536 (by decide) (by decide)⟩

/-- C4, as the spec states it, fails: `2 ^ 60 - 1` bytes become the double
`2 ^ 60`, so the loop ends with unit index 6, while
`1024 ^ 5 ≤ 2 ^ 60 - 1 < 1024 ^ 6`. -/
theorem C4_counterexample :
    (HumanReadable.mk 1152921504606846975).unitIndex = 6 ∧
      1024 ^ 5 ≤ 1152921504606846975 ∧ 1152921504606846975 < 1024 ^ 6 := by
  decide

/-- C4, amended: for every byte count `n < 2 ^ 64` the unit index `k` is at
most 6, so `"BKMGTPE"[k]` is read in bounds and is one of the seven letters,
and `k = 0` for `n = 0`; for `1 ≤ n` outside the 64 values from `2 ^ 60 - 64`
to `2 ^ 60 - 1`, `k` is the unique index with `1024 ^ k ≤ n < 1024 ^ (k + 1)`;
on those 64 values the conversion to `double` gives `2 ^ 60` and `k = 6`. -/
theorem C4_unit_index (n : Nat) (h : n < 2 ^ 64) :
    (HumanReadable.mk n).unitIndex ≤ 6 ∧
      unitLetter (HumanReadable.mk n).unitIndex ∈ ['B', 'K', 'M', 'G', 'T', 'P', 'E'] ∧
      (n = 0 → (HumanReadable.mk n).unitIndex = 0) ∧
      (1 ≤ n → (n < 2 ^ 60 - 64 ∨ 2 ^ 60 ≤ n) →
        1024 ^ (HumanReadable.mk n).unitIndex ≤ n ∧
          n < 1024 ^ ((HumanReadable.mk n).unitIndex + 1) ∧
          ∀ j, 1024 ^ j ≤ n → n < 1024 ^ (j + 1) → j = (HumanReadable.mk n).unitIndex) ∧
      (2 ^ 60 - 64 ≤ n → n < 2 ^ 60 → (HumanReadable.mk n).unitIndex = 6) := by
  have hle := unitIndex_le_six n h
  refine ⟨hle, ?_, fun h0 => unitIndex_small n (by omega), fun h1 hout => ?_, fun h3 h4 => ?_⟩
  · generalize (HumanReadable.mk n).unitIndex = k at hle
    interval_cases k <;> decide
  · obtain ⟨b1, b2⟩ := unitIndex_bracket n h1
    have hlo : 1024 ^ (HumanReadable.mk n).unitIndex ≤ n := by
      by_contra hc
      have hc2 : n < 1024 ^ (HumanReadable.mk n).unitIndex := by omega
      by_cases h53 : n < 2 ^ 53
      · rw [round53_small n false h53] at b1
        omega
      · have hk6 : (HumanReadable.mk n).unitIndex = 6 := by
          by_contra hne
          have : 1024 ^ (HumanReadable.mk n).unitIndex ≤ 1024 ^ 5 :=
            Nat.pow_le_pow_right (by norm_num) (by omega)
          norm_num at this h53
          omega
        rw [hk6] at hc2 b1
        rcases hout with ho | ho
        · have := round53_lt_exa n ho
          norm_num at this b1
          omega
        · norm_num at hc2 ho
          omega
    have hhi : n < 1024 ^ ((HumanReadable.mk n).unitIndex + 1) := by
      by_contra hc
      have hc2 : 1024 ^ ((HumanReadable.mk n).unitIndex + 1) ≤ n := by omega
      rw [pow1024] at hc2 b2
      have := round53_ge_pow n _ false hc2
      omega
    refine ⟨hlo, hhi, fun j j1 j2 => ?_⟩
    by_contra hne
    rcases Nat.lt_or_gt_of_ne hne with hj | hj
    · have : 1024 ^ (j + 1) ≤ 1024 ^ (HumanReadable.mk n).unitIndex :=
        Nat.pow_le_pow_right (by norm_num) hj
      omega
    · have : 1024 ^ ((HumanReadable.mk n).unitIndex + 1) ≤ 1024 ^ j :=
        Nat.pow_le_pow_right (by norm_num) hj
      omega
  · obtain ⟨b1, b2⟩ := unitIndex_bracket n (by norm_num at h3; omega)
    rw [round53_eq_exa n h3 h4] at b1 b2
    by_contra hne
    have : 1024 ^ ((HumanReadable.mk n).unitIndex + 1) ≤ 1024 ^ 6 :=
      Nat.pow_le_pow_right (by norm_num) (by omega)
    norm_num at this b2
    omega

theorem C4_unit_index_witness :
    4400000 < 2 ^ 64 ∧ (HumanReadable.mk 4400000).unitIndex ≤ 6 ∧
      1024 ^ (HumanReadable.mk 4400000).unitIndex ≤ 4400000 ∧
      4400000 < 1024 ^ ((HumanReadable.mk 4400000).unitIndex + 1) :=
  ⟨by decide, (C4_unit_index 4400000 (by decide)).1,
    ((C4_unit_index 4400000 (by decide)).2.2.2.1 (by decide) (Or.inl (by decide))).1,
    ((C4_unit_index 4400000 (by decide)).2.2.2.1 (by decide) (Or.inl (by decide))).2.1⟩

/-- C5, as the spec states it, fails: for `1048575 = 1024 ^ 2 - 1` bytes the
mantissa before rounding is just below 1024 and the mantissa printed is
`1024`, with unit index 1. -/
theorem C5_counterexample :
    (HumanReadable.mk 1048575).tenths = 10240 ∧
      (HumanReadable.mk 1048575).mantissaText = "1024" ∧
      (HumanReadable.mk 1048575).output = "1024KB (1048575)" := by
  decide

/-- C5, amended: for every byte count `n` the mantissa printed is at most
1024: in tenths it is at most 10240, and the text is that of `tenths / 10`;
the mantissa before the rounding is strictly below 1024. -/
theorem C5_mantissa_bound (n : Nat) :
    (HumanReadable.mk n).tenths ≤ 10240 ∧
      (HumanReadable.mk n).mantissaText = showTenths (HumanReadable.mk n).tenths ∧
      (HumanReadable.mk n).scaled.1.num < 1024 * 2 ^ (HumanReadable.mk n).scaled.1.scale := by
  obtain ⟨e1, e2, e3, _⟩ := scaled_spec n
  refine ⟨(tenths_range n).1, mantissaText_eq n, ?_⟩
  rw [e1, e2]
  exact e3

/-! ## The passes: claims C6 to C10 -/

theorem processDirectory_good (fs : List FileInfo) (w : CSVWriter) (gui : Gui) :
    processDirectory (fs.map FileInfo.toStep) w gui = writeAll fs (w, gui) := by
  have h := processLoop_writeAll fs [] w gui
  rw [List.append_nil] at h
  unfold processDirectory
  rw [h]
  rfl

theorem processLoop_failure (bad : Step) (err : FsError) (h : bad.failure = some err)
    (post : List Step) (w : CSVWriter) (gui : Gui) :
    processLoop (bad :: post) w gui =
      (⟨w.file ++ bad.fragment, w.totalEntries, w.processedEntries⟩, gui, some err) := by
  cases bad with
  | iterError e =>
    simp only [Step.failure, Option.some.injEq] at h
    subst h
    simp only [processLoop, Step.fragment, String.append_empty]
  | entry en =>
    obtain ⟨p, nm, ex, lt, sz, dir⟩ := en
    cases lt with
    | error e =>
      simp only [Step.failure, Option.some.injEq] at h
      subst h
      simp only [processLoop, CSVWriter.writeEntry, Step.fragment, String.append_empty]
    | ok t =>
      cases sz with
      | error e =>
        simp only [Step.failure, Option.some.injEq] at h
        subst h
        simp only [processLoop, CSVWriter.writeEntry, Step.fragment, String.append_assoc]
      | ok size =>
        cases dir with
        | error e =>
          simp only [Step.failure, Option.some.injEq] at h
          subst h
          simp only [processLoop, CSVWriter.writeEntry, Step.fragment, String.append_assoc]
        | ok d =>
          simp [Step.failure] at h

theorem processDirectory_failure (pre : List FileInfo) (bad : Step) (err : FsError)
    (h : bad.failure = some err) (post : List Step) (w : CSVWriter) (gui : Gui) :
    processDirectory (pre.map FileInfo.toStep ++ bad :: post) w gui =
      (⟨(writeAll pre (w, gui)).1.file ++ bad.fragment, (writeAll pre (w, gui)).1.totalEntries,
          (writeAll pre (w, gui)).1.processedEntries⟩,
        appendLog (writeAll pre (w, gui)).2 err.logLine) := by
  unfold processDirectory
  rw [processLoop_writeAll, processLoop_failure bad err h]
  rfl

theorem countEntries_good (fs : List FileInfo) : ∀ (count : Nat), count < SIZE_MOD →
    countEntries (fs.map FileInfo.toStep) count = .ok ((count + fs.length) % SIZE_MOD) := by
  induction fs with
  | nil =>
    intro count hc
    simp only [List.map_nil, countEntries, List.length_nil, Nat.add_zero]
    rw [Nat.mod_eq_of_lt hc]
  | cons f fs ih =>
    intro count _
    simp only [List.map_cons, FileInfo.toStep, countEntries, List.length_cons]
    have := ih ((count + 1) % SIZE_MOD) (Nat.mod_lt _ (by decide))
    simp only [FileInfo.toStep] at this
    rw [this, Nat.mod_add_mod]
    congr 2
    omega

theorem toInt32_small (x : Nat) (h : x < 2 ^ 31) : toInt32 x = (x : Int) := by
  unfold toInt32
  have e : x % 2 ^ 32 = x := Nat.mod_eq_of_lt (by norm_num at h ⊢; omega)
  rw [e, if_pos h]

theorem percentage_exact (total k : Nat) (h1 : k * 100 < 2 ^ 64) (h2 : k * 100 / total < 2 ^ 31) :
    percentage total k = ((k * 100 / total : Nat) : Int) := by
  unfold percentage
  rw [Nat.mod_eq_of_lt (by simpa [SIZE_MOD] using h1), toInt32_small _ h2]

theorem progress_getElem (fs : List FileInfo) (total k : Nat) (ht : 0 < total)
    (hk : k < fs.length) :
    (processDirectory (fs.map FileInfo.toStep) (CSVWriter.new.setTotalEntries total)
        emptyGui).2.progress[k]? = some (percentage total ((k + 1) % SIZE_MOD)) := by
  rw [processDirectory_good, writeAll_progress]
  simp only [CSVWriter.new, CSVWriter.setTotalEntries, emptyGui, List.nil_append, ht,
    if_true, List.getElem?_map, Nat.zero_add]
  rw [List.getElem?_range hk]
  rfl

theorem walk_progress (total : Nat) (fs : List FileInfo) (gui : Gui)
    (h1 : fs.length * 100 < 2 ^ 64) (h2 : fs.length * 100 / total < 2 ^ 31) :
    (processDirectory (fs.map FileInfo.toStep) (CSVWriter.new.setTotalEntries total)
        gui).2.progress =
      gui.progress ++
        (if 0 < total then
          (List.range fs.length).map (fun i => (((i + 1) * 100 / total : Nat) : Int))
        else []) := by
  rw [processDirectory_good, writeAll_progress]
  simp only [CSVWriter.new, CSVWriter.setTotalEntries, Nat.zero_add]
  congr 1
  by_cases ht : 0 < total
  · rw [if_pos ht, if_pos ht]
    apply List.map_congr_left
    intro i hi
    have hi2 : i < fs.length := List.mem_range.1 hi
    have hk : (i + 1) * 100 ≤ fs.length * 100 := Nat.mul_le_mul_right 100 hi2
    have hq : (i + 1) * 100 / total ≤ fs.length * 100 / total := Nat.div_le_div_right hk
    have hm : (i + 1) % SIZE_MOD = i + 1 :=
      Nat.mod_eq_of_lt (by simp only [SIZE_MOD]; omega)
    rw [hm]
    exact percentage_exact total (i + 1) (by omega) (by omega)
  · rw [if_neg ht, if_neg ht]

/-- C6, as the spec states it, fails: when the size query of the first entry
throws, the walk ends there.  The entry after it is not passed to
`writeEntry`: the file holds the header and the fragment of the failing entry,
no entry has been counted as processed, and the log holds the error line only. -/
theorem C6_counterexample :
    processDirectory [Step.entry deniedEntry, sampleFile.toStep]
        (CSVWriter.new.setTotalEntries 2) emptyGui =
      (⟨header ++ "C:\\data\\b.bin,b.bin,.bin,", 2, 0⟩,
        ⟨[], ["Error accessing path: C:\\data\\b.bin - file_size: Access is denied.\r\n"],
          "", false⟩) := by
  decide

/-- C6, amended: a filesystem error raised while handling one entry (a
failing query or a failing iterator step) is caught and logged by
`processDirectory`, and it ends the walk: the entries before it keep their
complete data lines and log lines, the failing entry leaves the fragment
written before the error, and what the iterator would have yielded afterwards
has no effect at all. -/
theorem C6_error_ends_walk (pre : List FileInfo) (bad : Step) (err : FsError)
    (post : List Step) (total : Nat) (gui : Gui) (h : bad.failure = some err) :
    processDirectory (pre.map FileInfo.toStep ++ bad :: post)
        (CSVWriter.new.setTotalEntries total) gui =
      processDirectory (pre.map FileInfo.toStep ++ [bad])
        (CSVWriter.new.setTotalEntries total) gui ∧
    (processDirectory (pre.map FileInfo.toStep ++ bad :: post)
        (CSVWriter.new.setTotalEntries total) gui).1.file =
      header ++ String.join (pre.map FileInfo.line) ++ bad.fragment ∧
    (processDirectory (pre.map FileInfo.toStep ++ bad :: post)
        (CSVWriter.new.setTotalEntries total) gui).2.log =
      gui.log ++ pre.map FileInfo.logLine ++ [err.logLine] := by
  rw [processDirectory_failure pre bad err h post, processDirectory_failure pre bad err h []]
  refine ⟨rfl, ?_, ?_⟩
  · simp only [writeAll_file]
    rfl
  · simp only [appendLog, writeAll_log]

theorem C6_error_ends_walk_witness :
    (Step.iterError deniedError).failure = some deniedError ∧
    (processDirectory ([sampleFile].map FileInfo.toStep ++ Step.iterError deniedError ::
          [sampleFile.toStep]) (CSVWriter.new.setTotalEntries 3) emptyGui).2.log =
      ["Processed: C:\\data\\a.txt\r\n",
        "Error accessing path: C:\\data\\b.bin - file_size: Access is denied.\r\n"] :=
  ⟨rfl, (C6_error_ends_walk [sampleFile] (Step.iterError deniedError) deniedError
    [sampleFile.toStep] 3 emptyGui rfl).2.2.trans (by decide)⟩

/-- C7, as the spec states it, fails: with a total of 1, the call of
`writeEntry` number 21474837 computes `2147483700`, which `static_cast<int>`
turns into `-2147483596`, and that is the position sent to the progress bar. -/
theorem C7_counterexample :
    (processDirectory ((List.replicate 21474837 sampleFile).map FileInfo.toStep)
        (CSVWriter.new.setTotalEntries 1) emptyGui).2.progress[21474836]? =
      some (-2147483596) ∧
    ((21474837 * 100 / 1 : Nat) : Int) = 2147483700 := by
  constructor
  · have hv : percentage 1 ((21474836 + 1) % SIZE_MOD) = -2147483596 := by decide
    rw [← hv]
    exact progress_getElem _ 1 21474836 (by decide) (by rw [List.length_replicate]; decide)
  · decide

/-- C7, amended: when the total is 0 no position is sent; when it is greater,
the call of `writeEntry` number `k` sends `⌊k * 100 / total⌋`, and the
positions sent by consecutive calls never decrease, as long as `k * 100`
stays below `2 ^ 64` (no wraparound of the `size_t` product) and the quotient
below `2 ^ 31` (it fits the `int` it is converted to). -/
theorem C7_progress_percentages (total : Nat) (fs : List FileInfo) (gui : Gui)
    (h1 : fs.length * 100 < 2 ^ 64) (h2 : fs.length * 100 / total < 2 ^ 31) :
    (processDirectory (fs.map FileInfo.toStep) (CSVWriter.new.setTotalEntries total)
        gui).2.progress =
      gui.progress ++
        (if 0 < total then
          (List.range fs.length).map (fun i => (((i + 1) * 100 / total : Nat) : Int))
        else []) ∧
    List.Sorted (fun a b => a ≤ b)
      ((List.range fs.length).map (fun i => (((i + 1) * 100 / total : Nat) : Int))) := by
  refine ⟨walk_progress total fs gui h1 h2, ?_⟩
  unfold List.Sorted
  rw [List.pairwise_map]
  refine (List.pairwise_lt_range fs.length).imp ?_
  intro a b hab
  have : (a + 1) * 100 / total ≤ (b + 1) * 100 / total :=
    Nat.div_le_div_right (Nat.mul_le_mul_right 100 (by omega))
  exact_mod_cast this

theorem C7_progress_percentages_witness :
    (([sampleFile, sampleFile, sampleFile].length * 100 < 2 ^ 64) ∧
      ([sampleFile, sampleFile, sampleFile].length * 100 / 3 < 2 ^ 31)) ∧
    (processDirectory ([sampleFile, sampleFile, sampleFile].map FileInfo.toStep)
        (CSVWriter.new.setTotalEntries 3) emptyGui).2.progress = [33, 66, 100] :=
  ⟨by decide, (C7_progress_percentages 3 [sampleFile, sampleFile, sampleFile] emptyGui
    (by decide) (by decide)).1.trans (by decide)⟩

/-- C8, as the spec states it, fails: with two entries counted and the size
query of the second one throwing during the walk, the only position sent is
50. -/
theorem C8_counterexample :
    (runProgram sampleEnv sampleWorld "C:\\data").gui.progress = [50] := by
  decide

/-- C8, amended: for every scan in which the walking pass meets the very
entries that were counted, more than none and fewer than `2 ^ 64 / 100`, and
no query of any of them throws, the last position sent to the progress bar is
100. -/
theorem C8_last_percentage (env : Env) (world : World) (root : String) (fs : List FileInfo)
    (hopen : env.canOpenOutput = true) (hcount : env.countPass root = fs.map FileInfo.toStep)
    (hwalk : env.walkPass root = fs.map FileInfo.toStep) (hpos : 0 < fs.length)
    (hfit : fs.length * 100 < 2 ^ 64) :
    ∃ earlier : List Int,
      (runProgram env world root).gui.progress = world.gui.progress ++ earlier ++ [100] := by
  have hlen : fs.length < SIZE_MOD := by
    simp only [SIZE_MOD]
    omega
  have hc : countEntries (fs.map FileInfo.toStep) 0 = .ok fs.length := by
    rw [countEntries_good fs 0 (by decide), Nat.zero_add, Nat.mod_eq_of_lt hlen]
  have hq : fs.length * 100 / fs.length < 2 ^ 31 := by
    rw [Nat.mul_div_right 100 hpos]
    norm_num
  have hp := walk_progress fs.length fs
    (appendLog (appendLog world.gui "Counting entries...\r\n") "Processing directory...\r\n")
    hfit hq
  obtain ⟨n, hn⟩ : ∃ n, fs.length = n + 1 := ⟨fs.length - 1, by omega⟩
  refine ⟨(List.range n).map (fun i => (((i + 1) * 100 / fs.length : Nat) : Int)), ?_⟩
  unfold runProgram
  simp only [hopen, if_true, hcount, hwalk, hc, appendLog]
  simp only [appendLog] at hp
  rw [hp, if_pos hpos]
  have hlast : (((n + 1) * 100 / fs.length : Nat) : Int) = 100 := by
    rw [← hn, Nat.mul_div_right 100 hpos]
    rfl
  have hr : List.range fs.length = List.range n ++ [n] := by
    rw [hn, List.range_succ]
  rw [hr, List.map_append, List.map_singleton, hlast, List.append_assoc]

theorem C8_last_percentage_witness :
    (readableEnv.canOpenOutput = true ∧ 0 < [sampleFile, sampleFile].length ∧
      [sampleFile, sampleFile].length * 100 < 2 ^ 64) ∧
    ∃ earlier : List Int,
      (runProgram readableEnv sampleWorld "C:\\data").gui.progress =
        sampleWorld.gui.progress ++ earlier ++ [100] :=
  ⟨by decide, C8_last_percentage readableEnv sampleWorld "C:\\data"
    [sampleFile, sampleFile] rfl rfl rfl (by decide) (by decide)⟩

/-- C9, as the spec states it, fails: with an empty root path `runProgram`
still opens the output file, which loses the data line it held, and writes the
header line; it then starts the counting pass, which logs its failure. -/
theorem C9_counterexample :
    sampleWorld.outputFile = some (header ++ sampleFile.line) ∧
    (runProgram sampleEnv sampleWorld "").outputFile = some header ∧
    (runProgram sampleEnv sampleWorld "").gui.log =
      ["Counting entries...\r\n",
        "An error occurred: recursive_directory_iterator: cannot open\r\n"] := by
  decide

/-- C9, amended: for an empty root path `runProgram` does not check the path:
when the output file can be opened it is truncated and receives the header
line, the counting pass is started and logged, and, the iterator failing on
the empty path, the error is logged; the walking pass does not run, so the
file holds the header line only and no progress position is sent. -/
theorem C9_empty_root (env : Env) (world : World) (e : FsError) (rest : List Step)
    (hopen : env.canOpenOutput = true) (hiter : env.countPass "" = Step.iterError e :: rest) :
    runProgram env world "" =
      { outputFile := some header
        gui := { world.gui with
          log := world.gui.log ++
            ["Counting entries...\r\n", "An error occurred: " ++ e.what ++ "\r\n"] } } := by
  unfold runProgram
  simp only [hopen, if_true, hiter, countEntries, appendLog, CSVWriter.new, List.append_assoc,
    List.singleton_append]

theorem C9_empty_root_witness :
    (sampleEnv.canOpenOutput = true ∧
      sampleEnv.countPass "" =
        Step.iterError ⟨"", "recursive_directory_iterator: cannot open"⟩ :: []) ∧
    runProgram sampleEnv sampleWorld "" =
      { outputFile := some header
        gui := { sampleWorld.gui with
          log := sampleWorld.gui.log ++
            ["Counting entries...\r\n",
              "An error occurred: " ++
                (FsError.mk "" "recursive_directory_iterator: cannot open").what ++ "\r\n"] } } :=
  ⟨⟨rfl, rfl⟩, C9_empty_root sampleEnv sampleWorld
    ⟨"", "recursive_directory_iterator: cannot open"⟩ [] rfl rfl⟩

/-- C10: when the size query first fails on the entry number `i`, all earlier
queries succeeding, the file holds after the walk the header line, the `i - 1`
complete data lines of the earlier entries, and the fragment
`path,name,extension,` of that entry; `processedEntries` is `i - 1`, the
positions sent to the progress bar are those of the earlier entries only, and
nothing that follows the entry has any effect. -/
theorem C10_size_failure (pre : List FileInfo) (bad : DirEntry) (post : List Step)
    (timebuf : String) (err : FsError) (total : Nat) (gui : Gui)
    (htime : bad.lastWriteTime = .ok timebuf) (hsize : bad.fileSize = .error err)
    (hlen : pre.length < 2 ^ 64) :
    (processDirectory (pre.map FileInfo.toStep ++ Step.entry bad :: post)
        (CSVWriter.new.setTotalEntries total) gui).1.file =
      header ++ String.join (pre.map FileInfo.line)
        ++ (bad.path ++ "," ++ bad.filename ++ "," ++ bad.extension ++ ",") ∧
    (processDirectory (pre.map FileInfo.toStep ++ Step.entry bad :: post)
        (CSVWriter.new.setTotalEntries total) gui).1.processedEntries = pre.length ∧
    (processDirectory (pre.map FileInfo.toStep ++ Step.entry bad :: post)
        (CSVWriter.new.setTotalEntries total) gui).2.progress =
      (processDirectory (pre.map FileInfo.toStep)
        (CSVWriter.new.setTotalEntries total) gui).2.progress ∧
    (processDirectory (pre.map FileInfo.toStep ++ Step.entry bad :: post)
        (CSVWriter.new.setTotalEntries total) gui).2.progress.length =
      gui.progress.length + (if 0 < total then pre.length else 0) ∧
    processDirectory (pre.map FileInfo.toStep ++ Step.entry bad :: post)
        (CSVWriter.new.setTotalEntries total) gui =
      processDirectory (pre.map FileInfo.toStep ++ [Step.entry bad])
        (CSVWriter.new.setTotalEntries total) gui := by
  have hf : (Step.entry bad).failure = some err := by
    simp only [Step.failure, htime, hsize]
  have hfrag : (Step.entry bad).fragment =
      bad.path ++ "," ++ bad.filename ++ "," ++ bad.extension ++ "," := by
    simp only [Step.fragment, htime, hsize]
  rw [processDirectory_failure pre _ err hf post, processDirectory_failure pre _ err hf [],
    processDirectory_good]
  refine ⟨?_, ?_, rfl, ?_, rfl⟩
  · simp only [writeAll_file, hfrag]
    rfl
  · simp only
    rw [writeAll_processed pre (CSVWriter.new.setTotalEntries total, gui)
      (by show 0 < 2 ^ 64; norm_num)]
    simp only [CSVWriter.new, CSVWriter.setTotalEntries, Nat.zero_add]
    exact Nat.mod_eq_of_lt (by simpa [SIZE_MOD] using hlen)
  · simp only [appendLog, writeAll_progress, CSVWriter.new, CSVWriter.setTotalEntries,
      List.length_append]
    split <;> simp

theorem C10_size_failure_witness :
    (deniedEntry.lastWriteTime = .ok "2024-01-02 03:04:06" ∧
      deniedEntry.fileSize = .error deniedError ∧ [sampleFile].length < 2 ^ 64) ∧
    (processDirectory ([sampleFile].map FileInfo.toStep ++ Step.entry deniedEntry ::
          [sampleFile.toStep]) (CSVWriter.new.setTotalEntries 3) emptyGui).1.file =
      "Path,Name,Extension,Size, Last Update Date,Is Directory\n" ++
        "C:\\data\\a.txt,a.txt,.txt,10B,2024-01-02 03:04:05,No\n" ++
        "C:\\data\\b.bin,b.bin,.bin," :=
  ⟨⟨rfl, rfl, by decide⟩, (C10_size_failure [sampleFile] deniedEntry [sampleFile.toStep]
    "2024-01-02 03:04:06" deniedError 3 emptyGui rfl rfl (by decide)).1.trans (by decide)⟩

end DirArch
